import Mathlib

/-!
Verification development for the Kafka JSON sentiment consumer
(`consumers/json_consumer_gjrich.py`).

The consumer keeps module-level state: a per-author message tally
(`author_counts`, a `defaultdict(int)`), a running weighted sentiment total
(`sentiment_status`, rounded to 2 decimals after every update), the band for
which an alert last fired (`last_alert_range`), and a count of fully scored
messages (`message_counter`).  `process_message` parses one raw record as
JSON, tallies the author, scores the `message` text, folds the weighted score
into the running total, classifies the total into a band via a loop over a
fixed threshold list, and fires an alert when the band is new.

The embedding below models Python floats by rationals, `round(x, 2)` by
round-half-to-even at two decimal places, the parsed JSON dictionary by a
field list with distinct keys (as `json.loads` produces), and the external
`TextBlob` polarity scorer by an arbitrary function `String → ℚ` supplied as
a parameter.  Python raises `TypeError` when an unhashable value (list/dict)
is used as a dictionary key; `Json.hashKey?` models which JSON values can key
the tally dictionary.
-/

namespace Buzzline

/-- A parsed JSON value (result of `json.loads`).  An `obj` carries its
field list; keys are distinct, as in a Python dict. -/
inductive Json where
  | null : Json
  | bool : Bool → Json
  | num : ℚ → Json
  | str : String → Json
  | arr : List Json → Json
  | obj : List (String × Json) → Json

/-- A JSON value that Python can use as a dictionary key (hashable):
scalars only — lists and dicts raise `TypeError`. -/
inductive JKey where
  | null : JKey
  | bool : Bool → JKey
  | num : ℚ → JKey
  | str : String → JKey
deriving DecidableEq

/-- Which JSON values are hashable, hence usable as `author_counts` keys. -/
def Json.hashKey? : Json → Option JKey
  | .null => some .null
  | .bool b => some (.bool b)
  | .num q => some (.num q)
  | .str s => some (.str s)
  | .arr _ => none
  | .obj _ => none

/-- Returns `true` exactly for JSON objects (Python `isinstance(x, dict)`). -/
def Json.isObj : Json → Bool
  | .obj _ => true
  | _ => false

/-- One raw Kafka record: either a string that `json.loads` rejects
(`JSONDecodeError`), or one that parses to a JSON value. -/
inductive Raw where
  | malformed : Raw
  | parsed : Json → Raw

/-- The module-level `author_weights` dictionary. -/
def author_weights : List (String × ℚ) :=
  [("Isolde the Daft", 4/10),
   ("Eleanor the Fair", 5/10),
   ("Cedric Sunblade", 6/10),
   ("Tristan Cuthbert", 7/10),
   ("Alaric the Bold", 8/10)]

/-- The module-level `alert_messages` dictionary: band code → alert text. -/
def alert_messages : List (Int × String) :=
  [(-2, "Hear ye, hear ye! The village is mourning the loss of several souls to a terrible illness; may God grant us strength in this trying time."),
   (-1, "Hear ye, hear ye! The Black Knight has been spotted near our borders; be prepared to defend your homes and loved ones."),
   (1, "Hear ye, hear ye! A bountiful harvest has been bestowed upon our town; let\x27s gather in the town square for celebration and feasting."),
   (2, "Hear ye, hear ye! Lord Xavier is hosting a grand feast at his castle; all are invited to share in the merriment and revelry.")]

/-- The module-level `thresholds` list the band-selection loop iterates over. -/
def thresholds : List Int := [-2, -1, 1, 2]

/-- Weight lookup, `author in author_weights` / `author_weights[author]`: only string
authors can match the string-keyed weight dictionary. -/
def weightLookup (k : JKey) : Option ℚ :=
  match k with
  | .str s => author_weights.lookup s
  | _ => none

/-- Lines 146–149: `score * author_weights[author]` when the author is a
key of the weight table, otherwise the raw score. -/
def weightedScore (author : JKey) (score : ℚ) : ℚ :=
  match weightLookup author with
  | some w => score * w
  | none => score

/-- Round-half-to-even to the nearest integer (the tie rule of Python
`round`). -/
def rhe (q : ℚ) : ℤ :=
  if q - ⌊q⌋ < 1/2 then ⌊q⌋
  else if 1/2 < q - ⌊q⌋ then ⌊q⌋ + 1
  else if ⌊q⌋ % 2 = 0 then ⌊q⌋ else ⌊q⌋ + 1

/-- Python `round(x, 2)`: round to two decimal places, ties to even. -/
def round2 (q : ℚ) : ℚ := (rhe (q * 100) : ℚ) / 100

/-- One pass of the band-selection loop body (lines 170–181).  None of the
four conditions mentions the loop variable `threshold`; a hit assigns
`current_range` and breaks, otherwise the body leaves `current_range`
untouched. -/
def loopBody (x : ℚ) : Option Int :=
  if -1 ≥ x ∧ x > -2 then some (-1)
  else if -2 ≥ x then some (-2)
  else if 1 ≤ x ∧ x ≤ 2 then some 1
  else if 2 < x then some 2
  else none

/-- The `for threshold in thresholds` loop: run the body once per list
element, stopping at the first `break`; `current_range` starts as `None`. -/
def loopGo (x : ℚ) : List Int → Option Int
  | [] => none
  | _ :: rest =>
    match loopBody x with
    | some r => some r
    | none => loopGo x rest

/-- Lines 168–181: the value of `current_range` after the loop. -/
def loopClassify (x : ℚ) : Option Int := loopGo x thresholds

/-- The sentiment-aggregation slice of the module state:
`sentiment_status` and `last_alert_range`. -/
structure AggState where
  cumulative : ℚ
  lastFired : Option Int
deriving DecidableEq

/-- Lines 153–186 (the sentiment path of one successful message): add the
weighted score, round to 2 decimals, classify, and fire an alert exactly
when `current_range is not None and last_alert_range != current_range`;
`last_alert_range` is overwritten only when the alert fires.  Returns the
new aggregation state and the band code of the fired alert, if any. -/
def updateAgg (st : AggState) (weighted : ℚ) : AggState × Option Int :=
  let cum := round2 (st.cumulative + weighted)
  match loopClassify cum with
  | some r =>
    if st.lastFired ≠ some r then (⟨cum, some r⟩, some r)
    else (⟨cum, st.lastFired⟩, none)
  | none => (⟨cum, st.lastFired⟩, none)

/-- The full module-level mutable state of the consumer. -/
structure ConsumerState where
  author_counts : List (JKey × Nat)
  sentiment_status : ℚ
  last_alert_range : Option Int
  message_counter : Nat
deriving DecidableEq

/-- The state at module load: empty tally, `sentiment_status = 0.00`,
`last_alert_range = None`, `message_counter = 0`. -/
def initialState : ConsumerState := ⟨[], 0, none, 0⟩

/-- The tally `author_counts[author] += 1` on a `defaultdict(int)`: bump the entry,
creating it at 1 when absent. -/
def incr (counts : List (JKey × Nat)) (k : JKey) : List (JKey × Nat) :=
  match counts with
  | [] => [(k, 1)]
  | (k', n) :: rest => if k' = k then (k', n + 1) :: rest else (k', n) :: incr rest k

/-- The grand total `sum(author_counts.values())`. -/
def sumCounts (counts : List (JKey × Nat)) : Nat := (counts.map Prod.snd).sum

/-- How one call to `process_message` ended, mirroring what is logged:
`decodeError` = `JSONDecodeError` handler, `shapeError` = the
not-a-dictionary branch, `fieldError` = the generic exception handler
(missing `message` key, non-string text passed to `TextBlob`, or an
unhashable author key), `ok a` = full success, with `a` the band code of
the alert fired (if any). -/
inductive Outcome where
  | decodeError : Outcome
  | shapeError : Outcome
  | fieldError : Outcome
  | ok : Option Int → Outcome
deriving DecidableEq

/-- The function `process_message` (lines 114–194), parameterized by the external
`TextBlob` polarity scorer.  Returns the state after the call together
with the outcome.  Mutation points follow the source order: the author
tally is bumped (line 138) *before* the `message` field is read
(line 141), so a dictionary without a `message` key still tallies its
author; every exception from inside the `try` lands in the generic
handler, which mutates nothing further. -/
def process_message (scorer : String → ℚ) (s : ConsumerState) (raw : Raw) :
    ConsumerState × Outcome :=
  match raw with
  | .malformed => (s, .decodeError)
  | .parsed j =>
    match j with
    | .obj fields =>
      let authorJ := (fields.lookup "author").getD (Json.str "unknown")
      match authorJ.hashKey? with
      | none => (s, .fieldError)
      | some author =>
        let s1 : ConsumerState := { s with author_counts := incr s.author_counts author }
        match fields.lookup "message" with
        | some (Json.str text) =>
          let score := scorer text
          let weighted := weightedScore author score
          let res := updateAgg ⟨s1.sentiment_status, s1.last_alert_range⟩ weighted
          ({ s1 with
              sentiment_status := res.1.cumulative,
              last_alert_range := res.1.lastFired,
              message_counter := s1.message_counter + 1 }, .ok res.2)
        | _ => (s1, .fieldError)
    | _ => (s, .shapeError)

/-- Process a finite sequence of raw records in arrival order. -/
def runConsumer (scorer : String → ℚ) (s : ConsumerState) (rs : List Raw) :
    ConsumerState :=
  rs.foldl (fun st r => (process_message scorer st r).1) s

/-- Fold a finite sequence of (author, score) pairs through the
aggregation step, as successful messages do. -/
def runAgg (st : AggState) (ps : List (JKey × ℚ)) : AggState :=
  ps.foldl (fun a p => (updateAgg a (weightedScore p.1 p.2)).1) st

/-- Fold a sequence of already-weighted scores through the aggregation
step. -/
def runAggW (st : AggState) (ws : List ℚ) : AggState :=
  ws.foldl (fun a w => (updateAgg a w).1) st

/-- Holds (returns `true`) when every step of the weighted-score sequence leaves the
running total classified as neutral (no band). -/
def neutralRun (st : AggState) : List ℚ → Bool
  | [] => true
  | w :: ws =>
    let st' := (updateAgg st w).1
    decide (loopClassify st'.cumulative = none) && neutralRun st' ws

/-- Returns `true` exactly when an optional JSON value is present and is a string
— the shape the `message` field must have for `TextBlob` scoring to
succeed. -/
def isTextStr : Option Json → Bool
  | some (Json.str _) => true
  | _ => false

/-- Returns `true` exactly for the raw records on which `process_message` bumps
the author tally: the record parses to a JSON object and its author value
(the `author` field, or the default `"unknown"`) is hashable. -/
def tallies : Raw → Bool
  | .parsed (Json.obj fields) =>
    (((fields.lookup "author").getD (Json.str "unknown")).hashKey?).isSome
  | .parsed _ => false
  | .malformed => false

/-- Modelled from the spec (§3): the four sentiment bands; "neutral" is
the absence of a band. -/
inductive Band where
  | veryNegative : Band
  | negative : Band
  | positive : Band
  | veryPositive : Band
deriving DecidableEq

/-- The integer code the source uses for each spec-level band. -/
def bandCode : Band → Int
  | .veryNegative => -2
  | .negative => -1
  | .positive => 1
  | .veryPositive => 2

/-- Modelled from the spec (§4.5): the Band Classifier as a single-pass
ordered decision list, first match wins. -/
def specClassify (x : ℚ) : Option Band :=
  if x ≤ -2 then some Band.veryNegative
  else if -2 < x ∧ x ≤ -1 then some Band.negative
  else if 1 ≤ x ∧ x ≤ 2 then some Band.positive
  else if 2 < x then some Band.veryPositive
  else none

/-! ## Helper lemmas -/

/-- Since no branch condition mentions the loop variable, the loop
computes exactly one pass of the body. -/
theorem loopClassify_eq_body (x : ℚ) : loopClassify x = loopBody x := by
  cases h : loopBody x <;> simp [loopClassify, thresholds, loopGo, h]

theorem loopClassify_of_le_neg2 {x : ℚ} (h : x ≤ -2) :
    loopClassify x = some (-2) := by
  rw [loopClassify_eq_body]
  unfold loopBody
  rw [if_neg (by rintro ⟨_, b⟩; linarith), if_pos (by linarith)]

theorem loopClassify_of_neg {x : ℚ} (h1 : -2 < x) (h2 : x ≤ -1) :
    loopClassify x = some (-1) := by
  rw [loopClassify_eq_body]
  unfold loopBody
  rw [if_pos ⟨by linarith, h1⟩]

theorem loopClassify_of_neutral {x : ℚ} (h1 : -1 < x) (h2 : x < 1) :
    loopClassify x = none := by
  rw [loopClassify_eq_body]
  unfold loopBody
  rw [if_neg (by rintro ⟨a, _⟩; linarith), if_neg (by intro a; linarith),
    if_neg (by rintro ⟨a, _⟩; linarith), if_neg (by intro a; linarith)]

theorem loopClassify_of_pos {x : ℚ} (h1 : 1 ≤ x) (h2 : x ≤ 2) :
    loopClassify x = some 1 := by
  rw [loopClassify_eq_body]
  unfold loopBody
  rw [if_neg (by rintro ⟨a, _⟩; linarith), if_neg (by intro a; linarith),
    if_pos ⟨h1, h2⟩]

theorem loopClassify_of_veryPos {x : ℚ} (h : 2 < x) :
    loopClassify x = some 2 := by
  rw [loopClassify_eq_body]
  unfold loopBody
  rw [if_neg (by rintro ⟨a, _⟩; linarith), if_neg (by intro a; linarith),
    if_neg (by rintro ⟨_, b⟩; linarith), if_pos h]

/-- Every rational falls in exactly one of the five regions. -/
theorem regions (x : ℚ) :
    x ≤ -2 ∨ (-2 < x ∧ x ≤ -1) ∨ (-1 < x ∧ x < 1) ∨ (1 ≤ x ∧ x ≤ 2) ∨ 2 < x := by
  rcases le_or_lt x (-2) with h | h
  · exact Or.inl h
  rcases le_or_lt x (-1) with h2 | h2
  · exact Or.inr (Or.inl ⟨h, h2⟩)
  rcases lt_or_le x 1 with h3 | h3
  · exact Or.inr (Or.inr (Or.inl ⟨h2, h3⟩))
  rcases le_or_lt x 2 with h4 | h4
  · exact Or.inr (Or.inr (Or.inr (Or.inl ⟨h3, h4⟩)))
  · exact Or.inr (Or.inr (Or.inr (Or.inr h4)))

/-- If one pass of the loop body selects nothing, the whole loop selects
nothing, whatever list it iterates over. -/
theorem loopGo_of_body_none {x : ℚ} (h : loopBody x = none) :
    ∀ ts : List Int, loopGo x ts = none := by
  intro ts
  induction ts with
  | nil => rfl
  | cons t rest ih => simp [loopGo, h, ih]

/-! ## Claims -/

/-- C3. The band classification is total with five mutually exclusive,
exhaustive branches: `current_range` is `-2` (VeryNegative) when
`x ≤ -2`, `-1` (Negative) when `-2 < x ≤ -1`, `1` (Positive) when
`1 ≤ x ≤ 2`, `2` (VeryPositive) when `2 < x`, and `None` (neutral) when
`-1 < x < 1`; for every rational exactly one of the five region
conditions holds. -/
theorem classify_branches_exhaustive_exclusive (x : ℚ) :
    ((decide (x ≤ -2)).toNat + (decide (-2 < x ∧ x ≤ -1)).toNat +
      (decide (1 ≤ x ∧ x ≤ 2)).toNat + (decide (2 < x)).toNat +
      (decide (-1 < x ∧ x < 1)).toNat = 1) ∧
    (x ≤ -2 → loopClassify x = some (bandCode Band.veryNegative)) ∧
    (-2 < x ∧ x ≤ -1 → loopClassify x = some (bandCode Band.negative)) ∧
    (1 ≤ x ∧ x ≤ 2 → loopClassify x = some (bandCode Band.positive)) ∧
    (2 < x → loopClassify x = some (bandCode Band.veryPositive)) ∧
    (-1 < x ∧ x < 1 → loopClassify x = none) := by
  refine ⟨?_, fun h => loopClassify_of_le_neg2 h,
    fun h => loopClassify_of_neg h.1 h.2,
    fun h => loopClassify_of_pos h.1 h.2,
    fun h => loopClassify_of_veryPos h,
    fun h => loopClassify_of_neutral h.1 h.2⟩
  rcases regions x with h | ⟨h1, h2⟩ | ⟨h1, h2⟩ | ⟨h1, h2⟩ | h
  · have a : ¬(-2 < x ∧ x ≤ -1) := by rintro ⟨u, v⟩; linarith
    have b : ¬(1 ≤ x ∧ x ≤ 2) := by rintro ⟨u, v⟩; linarith
    have c : ¬(2 < x) := by linarith
    have d : ¬(-1 < x ∧ x < 1) := by rintro ⟨u, v⟩; linarith
    simp [h, a, b, c, d]
  · have a : ¬(x ≤ -2) := by linarith
    have b : ¬(1 ≤ x ∧ x ≤ 2) := by rintro ⟨u, v⟩; linarith
    have c : ¬(2 < x) := by linarith
    have d : ¬(-1 < x ∧ x < 1) := by rintro ⟨u, v⟩; linarith
    simp [h1, h2, a, b, c, d]
  · have a : ¬(x ≤ -2) := by linarith
    have b : ¬(-2 < x ∧ x ≤ -1) := by rintro ⟨u, v⟩; linarith
    have c : ¬(1 ≤ x ∧ x ≤ 2) := by rintro ⟨u, v⟩; linarith
    have d : ¬(2 < x) := by linarith
    simp [h1, h2, a, b, c, d]
  · have a : ¬(x ≤ -2) := by linarith
    have b : ¬(-2 < x ∧ x ≤ -1) := by rintro ⟨u, v⟩; linarith
    have c : ¬(2 < x) := by linarith
    have d : ¬(-1 < x ∧ x < 1) := by rintro ⟨u, v⟩; linarith
    simp [h1, h2, a, b, c, d]
  · have a : ¬(x ≤ -2) := by linarith
    have b : ¬(-2 < x ∧ x ≤ -1) := by rintro ⟨u, v⟩; linarith
    have c : ¬(1 ≤ x ∧ x ≤ 2) := by rintro ⟨u, v⟩; linarith
    have d : ¬(-1 < x ∧ x < 1) := by rintro ⟨u, v⟩; linarith
    simp [h, a, b, c, d]

/-- Witness for C3 at `x = -3`. -/
theorem classify_branches_exhaustive_exclusive_witness :
    loopClassify (-3) = some (bandCode Band.veryNegative) :=
  (classify_branches_exhaustive_exclusive (-3)).2.1 (by norm_num)

/-- C9. The source's band-selection loop over the fixed threshold list is
behaviorally equal to the spec's single-pass ordered decision function:
for every rational, the loop's `current_range` is the code of the band
the spec classifier produces; moreover the loop's outcome is the same for
every nonempty iteration list, since no branch condition mentions the
loop variable. -/
theorem loop_refines_spec_classifier :
    (∀ x : ℚ, loopClassify x = Option.map bandCode (specClassify x)) ∧
    (∀ (x : ℚ) (ts : List Int), ts ≠ [] → loopGo x ts = loopClassify x) := by
  constructor
  · intro x
    rcases regions x with h | ⟨h1, h2⟩ | ⟨h1, h2⟩ | ⟨h1, h2⟩ | h
    · rw [loopClassify_of_le_neg2 h]
      unfold specClassify
      rw [if_pos h]
      rfl
    · rw [loopClassify_of_neg h1 h2]
      unfold specClassify
      rw [if_neg (by linarith), if_pos ⟨h1, h2⟩]
      rfl
    · rw [loopClassify_of_neutral h1 h2]
      unfold specClassify
      rw [if_neg (by linarith), if_neg (by rintro ⟨u, v⟩; linarith),
        if_neg (by rintro ⟨u, v⟩; linarith), if_neg (by intro u; linarith)]
      rfl
    · rw [loopClassify_of_pos h1 h2]
      unfold specClassify
      rw [if_neg (by linarith), if_neg (by rintro ⟨u, v⟩; linarith),
        if_pos ⟨h1, h2⟩]
      rfl
    · rw [loopClassify_of_veryPos h]
      unfold specClassify
      rw [if_neg (by linarith), if_neg (by rintro ⟨u, v⟩; linarith),
        if_neg (by rintro ⟨u, v⟩; linarith), if_pos h]
      rfl
  · intro x ts hts
    cases hb : loopBody x with
    | some r =>
      cases ts with
      | nil => exact absurd rfl hts
      | cons t rest => simp [loopGo, hb, loopClassify_eq_body]
    | none => rw [loopGo_of_body_none hb, loopClassify_eq_body, hb]

/-- Witness for C9 at `x = 0` and the singleton iteration list `[5]`. -/
theorem loop_refines_spec_classifier_witness :
    loopClassify 0 = Option.map bandCode (specClassify 0) ∧
    loopGo 0 [5] = loopClassify 0 :=
  ⟨loop_refines_spec_classifier.1 0,
   loop_refines_spec_classifier.2 0 [5] (by simp)⟩

/-- Characterization of one aggregation step, by cases on the band of the
new running total. -/
theorem updateAgg_spec (st : AggState) (w : ℚ) :
    (updateAgg st w).1.cumulative = round2 (st.cumulative + w) ∧
    (loopClassify (round2 (st.cumulative + w)) = none →
      updateAgg st w = (⟨round2 (st.cumulative + w), st.lastFired⟩, none)) ∧
    (∀ r : Int, loopClassify (round2 (st.cumulative + w)) = some r →
      updateAgg st w =
        if st.lastFired ≠ some r
        then (⟨round2 (st.cumulative + w), some r⟩, some r)
        else (⟨round2 (st.cumulative + w), st.lastFired⟩, none)) := by
  have hdef : updateAgg st w =
      match loopClassify (round2 (st.cumulative + w)) with
      | some r =>
        if st.lastFired ≠ some r
        then (⟨round2 (st.cumulative + w), some r⟩, some r)
        else (⟨round2 (st.cumulative + w), st.lastFired⟩, none)
      | none => (⟨round2 (st.cumulative + w), st.lastFired⟩, none) := rfl
  refine ⟨?_, ?_, ?_⟩
  · cases h : loopClassify (round2 (st.cumulative + w)) with
    | none => rw [hdef, h]
    | some r =>
      simp only [hdef, h]
      by_cases hl : st.lastFired ≠ some r
      · rw [if_pos hl]
      · rw [if_neg hl]
  · intro h
    rw [hdef, h]
  · intro r h
    rw [hdef, h]

/-- C2. An alert is emitted iff the band of the new running total is not
neutral and differs from the previously fired band; when it fires, the
emitted alert and the new `last_alert_range` are exactly that band, and
when it does not fire (including the neutral case) `last_alert_range` is
unchanged. -/
theorem alert_fires_iff_new_band (st : AggState) (w : ℚ) :
    ((updateAgg st w).2.isSome ↔
      loopClassify ((updateAgg st w).1.cumulative) ≠ none ∧
      loopClassify ((updateAgg st w).1.cumulative) ≠ st.lastFired) ∧
    ((updateAgg st w).2.isSome →
      (updateAgg st w).2 = loopClassify ((updateAgg st w).1.cumulative) ∧
      some ((updateAgg st w).1.lastFired) =
        some (loopClassify ((updateAgg st w).1.cumulative))) ∧
    ((updateAgg st w).2 = none → (updateAgg st w).1.lastFired = st.lastFired) ∧
    (updateAgg st w).1.cumulative = round2 (st.cumulative + w) := by
  obtain ⟨hc, hnone, hsome⟩ := updateAgg_spec st w
  cases h : loopClassify (round2 (st.cumulative + w)) with
  | none =>
    rw [hnone h]
    simp [h]
  | some r =>
    rw [hsome r h]
    by_cases hl : st.lastFired ≠ some r
    · rw [if_pos hl]
      simp [h, Ne.symm hl]
    · rw [if_neg hl]
      push_neg at hl
      simp [h, hl]

/-- Witness for C2 at the initial aggregator state and weighted score 1:
the total becomes 1.00, band Positive (code 1), and the alert fires. -/
theorem alert_fires_iff_new_band_witness :
    (updateAgg ⟨0, none⟩ 1).2 = loopClassify ((updateAgg ⟨0, none⟩ 1).1.cumulative) :=
  ((alert_fires_iff_new_band ⟨0, none⟩ 1).2.1 (by
    rw [((alert_fires_iff_new_band ⟨0, none⟩ 1).1)]
    constructor
    · rw [(alert_fires_iff_new_band ⟨0, none⟩ 1).2.2.2]
      rw [show round2 ((0 : ℚ) + 1) = 1 by norm_num [round2, rhe]]
      rw [loopClassify_of_pos (by norm_num) (by norm_num)]
      simp
    · rw [(alert_fires_iff_new_band ⟨0, none⟩ 1).2.2.2]
      rw [show round2 ((0 : ℚ) + 1) = 1 by norm_num [round2, rhe]]
      rw [loopClassify_of_pos (by norm_num) (by norm_num)]
      simp)).1

/-- C4. The cumulative value after a finite sequence of successfully
processed (author, score) pairs is the running sum of the weighted
scores, rounded to two decimals after each individual step; it is not, in
general, the single rounding of the unrounded sum (second conjunct:
two scores of 0.004 from an unweighted author accumulate to 0.00, while
rounding once at the end would give 0.01). -/
theorem cumulative_is_stepwise_rounded_fold :
    (∀ (st : AggState) (ps : List (JKey × ℚ)),
      (runAgg st ps).cumulative =
        ps.foldl (fun c p => round2 (c + weightedScore p.1 p.2)) st.cumulative) ∧
    (runAgg ⟨0, none⟩ [(JKey.str "a", 4/1000), (JKey.str "a", 4/1000)]).cumulative ≠
      round2 ((0 : ℚ) + weightedScore (JKey.str "a") (4/1000) +
        weightedScore (JKey.str "a") (4/1000)) := by
  have hfold : ∀ (ps : List (JKey × ℚ)) (st : AggState),
      (runAgg st ps).cumulative =
        ps.foldl (fun c p => round2 (c + weightedScore p.1 p.2)) st.cumulative := by
    intro ps
    induction ps with
    | nil => intro st; rfl
    | cons p rest ih =>
      intro st
      have hstep : runAgg st (p :: rest) =
          runAgg ((updateAgg st (weightedScore p.1 p.2)).1) rest := by
        simp [runAgg]
      rw [hstep, ih, (updateAgg_spec st (weightedScore p.1 p.2)).1]
      rfl
  refine ⟨fun st ps => hfold ps st, ?_⟩
  have hlk : weightLookup (JKey.str "a") = none := by decide
  have hw : ∀ q : ℚ, weightedScore (JKey.str "a") q = q := by
    intro q
    simp [weightedScore, hlk]
  have h1 : round2 ((0 : ℚ) + 4/1000) = 0 := by norm_num [round2, rhe]
  have h2 : round2 ((0 : ℚ) + 4/1000 + 4/1000) = 1/100 := by
    norm_num [round2, rhe]
  rw [hfold]
  simp only [List.foldl, hw]
  rw [h1, h1, h2]
  norm_num

/-- Witness for C4: the empty sequence leaves the cumulative value at its
starting point. -/
theorem cumulative_is_stepwise_rounded_fold_witness :
    (runAgg ⟨1/2, none⟩ []).cumulative = (1/2 : ℚ) :=
  cumulative_is_stepwise_rounded_fold.1 ⟨1/2, none⟩ []

/-- While every step classifies as neutral, `last_alert_range` never
changes. -/
theorem lastFired_stable_of_neutralRun :
    ∀ (ws : List ℚ) (st : AggState), neutralRun st ws = true →
      (runAggW st ws).lastFired = st.lastFired := by
  intro ws
  induction ws with
  | nil => intro st _; rfl
  | cons w rest ih =>
    intro st h
    simp only [neutralRun, Bool.and_eq_true, decide_eq_true_eq] at h
    obtain ⟨h1, h2⟩ := h
    rw [(updateAgg_spec st w).1] at h1
    have hstep : runAggW st (w :: rest) = runAggW (updateAgg st w).1 rest := rfl
    rw [hstep, ih _ h2, (updateAgg_spec st w).2.1 h1]

/-- C5. Hysteresis: if the last alert fired for band `B` and the running
total then moves through the neutral dead zone for any number of steps,
`last_alert_range` still holds `B`; a next step whose new total
classifies back into `B` fires no alert, while a next step classifying
into any band other than `B` fires an alert for that band. -/
theorem alert_hysteresis (st : AggState) (B : Int) (ws : List ℚ) (w : ℚ)
    (hB : st.lastFired = some B) (hn : neutralRun st ws = true) :
    (runAggW st ws).lastFired = some B ∧
    (loopClassify ((updateAgg (runAggW st ws) w).1.cumulative) = some B →
      (updateAgg (runAggW st ws) w).2 = none) ∧
    (∀ Bp : Int, Bp ≠ B →
      loopClassify ((updateAgg (runAggW st ws) w).1.cumulative) = some Bp →
      (updateAgg (runAggW st ws) w).2 = some Bp) := by
  have hL : (runAggW st ws).lastFired = some B := by
    rw [lastFired_stable_of_neutralRun ws st hn, hB]
  refine ⟨hL, ?_, ?_⟩
  · intro h
    rw [(updateAgg_spec _ w).1] at h
    rw [(updateAgg_spec _ w).2.2 B h, if_neg (by rw [hL]; simp)]
  · intro Bp hne h
    rw [(updateAgg_spec _ w).1] at h
    rw [(updateAgg_spec _ w).2.2 Bp h,
      if_pos (by rw [hL]; simp [Ne.symm hne])]

/-- Witness for C5: the last alert fired for VeryNegative (`-2`) at total
`-2.00`; a weighted score of 1.5 moves the total to `-0.50` (neutral),
and a further 1.6 moves it to `1.10` (Positive), which fires. -/
theorem alert_hysteresis_witness :
    (updateAgg (runAggW ⟨-2, some (-2)⟩ [3/2]) (8/5)).2 = some 1 := by
  have hcl : loopClassify ((updateAgg (⟨-2, some (-2)⟩ : AggState) (3/2)).1.cumulative) = none := by
    rw [(updateAgg_spec _ _).1]
    rw [show round2 ((-2 : ℚ) + 3/2) = -1/2 by norm_num [round2, rhe]]
    exact loopClassify_of_neutral (by norm_num) (by norm_num)
  have hn : neutralRun ⟨-2, some (-2)⟩ [3/2] = true := by
    simp [neutralRun, hcl]
  have hcum : (runAggW (⟨-2, some (-2)⟩ : AggState) [3/2]).cumulative = -1/2 := by
    have hrun : runAggW (⟨-2, some (-2)⟩ : AggState) [3/2] =
        (updateAgg (⟨-2, some (-2)⟩ : AggState) (3/2)).1 := rfl
    rw [hrun, (updateAgg_spec _ _).1]
    norm_num [round2, rhe]
  have hcl2 : loopClassify
      ((updateAgg (runAggW (⟨-2, some (-2)⟩ : AggState) [3/2]) (8/5)).1.cumulative) = some 1 := by
    rw [(updateAgg_spec _ _).1, hcum]
    rw [show round2 ((-1/2 : ℚ) + 8/5) = 11/10 by norm_num [round2, rhe]]
    exact loopClassify_of_pos (by norm_num) (by norm_num)
  exact (alert_hysteresis ⟨-2, some (-2)⟩ (-2) [3/2] (8/5) rfl hn).2.2 1 (by decide) hcl2

/-- C1 counterexample. The record `{"author": "Eve"}` parses as a JSON
object but lacks the `message` field; the claim says the author counter
is not incremented, yet processing it from the initial state leaves
`author_counts = {"Eve": 1}` (the tally at line 138 precedes the
`message` access at line 141) while the call ends in the generic
exception handler. -/
theorem decode_missing_field_tallies_author :
    (process_message (fun _ => 0) initialState
      (Raw.parsed (Json.obj [("author", Json.str "Eve")]))).1.author_counts =
      [(JKey.str "Eve", 1)] ∧
    (process_message (fun _ => 0) initialState
      (Raw.parsed (Json.obj [("author", Json.str "Eve")]))).2 = Outcome.fieldError ∧
    initialState.author_counts = [] ∧
    (([(("author" : String), Json.str "Eve")]).lookup "message").isNone = true := by
  refine ⟨by decide, by decide, rfl, by decide⟩

/-- C1 as amended. For a record that parses as a JSON object but lacks
the `message` field, processing fails in the generic exception handler:
no alert is emitted and the cumulative sentiment, last-fired band, and
message counter are unchanged — but the author counter has been
incremented for the record's author whenever the author value can serve
as a dictionary key (and is unchanged otherwise). -/
theorem missing_field_frame_effects (scorer : String → ℚ) (s : ConsumerState)
    (fields : List (String × Json))
    (hmsg : (fields.lookup "message").isNone = true) :
    (process_message scorer s (Raw.parsed (Json.obj fields))).1.sentiment_status =
      s.sentiment_status ∧
    (process_message scorer s (Raw.parsed (Json.obj fields))).1.last_alert_range =
      s.last_alert_range ∧
    (process_message scorer s (Raw.parsed (Json.obj fields))).1.message_counter =
      s.message_counter ∧
    (process_message scorer s (Raw.parsed (Json.obj fields))).2 = Outcome.fieldError ∧
    (process_message scorer s (Raw.parsed (Json.obj fields))).1.author_counts =
      (match ((fields.lookup "author").getD (Json.str "unknown")).hashKey? with
        | some a => incr s.author_counts a
        | none => s.author_counts) := by
  have hm : fields.lookup "message" = none := by
    rwa [Option.isNone_iff_eq_none] at hmsg
  cases ha : ((fields.lookup "author").getD (Json.str "unknown")).hashKey? with
  | none => simp [process_message, ha]
  | some a => simp [process_message, ha, hm]

/-- Witness for C1's amended statement at the record
`{"author": "Eve"}` from the initial state. -/
theorem missing_field_frame_effects_witness :
    (process_message (fun _ => 0) initialState
      (Raw.parsed (Json.obj [("author", Json.str "Eve")]))).1.sentiment_status =
      initialState.sentiment_status :=
  (missing_field_frame_effects (fun _ => 0) initialState
    [("author", Json.str "Eve")] (by decide)).1

/-- C10. When processing fails after the author tally (the `message`
field is absent, or present but not a string so that `TextBlob` raises),
the sentiment path is untouched: cumulative sentiment, last-fired band,
and the message counter keep their prior values, no alert is emitted
(the call ends in the generic exception handler), and the author count
is the only mutation, incremented exactly once. -/
theorem post_tally_failure_frame (scorer : String → ℚ) (s : ConsumerState)
    (fields : List (String × Json)) (a : JKey)
    (ha : ((fields.lookup "author").getD (Json.str "unknown")).hashKey? = some a)
    (hmsg : isTextStr (fields.lookup "message") = false) :
    (process_message scorer s (Raw.parsed (Json.obj fields))).1.sentiment_status =
      s.sentiment_status ∧
    (process_message scorer s (Raw.parsed (Json.obj fields))).1.last_alert_range =
      s.last_alert_range ∧
    (process_message scorer s (Raw.parsed (Json.obj fields))).1.message_counter =
      s.message_counter ∧
    (process_message scorer s (Raw.parsed (Json.obj fields))).2 = Outcome.fieldError ∧
    (process_message scorer s (Raw.parsed (Json.obj fields))).1.author_counts =
      incr s.author_counts a := by
  cases hl : fields.lookup "message" with
  | none => simp [process_message, ha, hl]
  | some j =>
    cases j with
    | str t =>
      rw [hl] at hmsg
      simp [isTextStr] at hmsg
    | null => simp [process_message, ha, hl]
    | bool b => simp [process_message, ha, hl]
    | num q => simp [process_message, ha, hl]
    | arr l => simp [process_message, ha, hl]
    | obj l => simp [process_message, ha, hl]

/-- Witness for C10 at the record `{"author": "Eve", "message": 3}`
(non-string text, so scoring would raise) from the initial state. -/
theorem post_tally_failure_frame_witness :
    (process_message (fun _ => 0) initialState
      (Raw.parsed (Json.obj [("author", Json.str "Eve"), ("message", Json.num 3)]))).2 =
      Outcome.fieldError ∧
    (process_message (fun _ => 0) initialState
      (Raw.parsed (Json.obj [("author", Json.str "Eve"), ("message", Json.num 3)]))).1.author_counts =
      incr initialState.author_counts (JKey.str "Eve") :=
  ⟨(post_tally_failure_frame (fun _ => 0) initialState
      [("author", Json.str "Eve"), ("message", Json.num 3)] (JKey.str "Eve")
      (by decide) (by decide)).2.2.2.1,
   (post_tally_failure_frame (fun _ => 0) initialState
      [("author", Json.str "Eve"), ("message", Json.num 3)] (JKey.str "Eve")
      (by decide) (by decide)).2.2.2.2⟩

/-- C7. A record `json.loads` rejects is dropped in the
`JSONDecodeError` handler, and a record that parses to a non-object JSON
value is dropped in the `else` branch: in both cases the returned state
is exactly the prior state (no field mutated), the matching error
outcome is logged, and the call returns normally. -/
theorem malformed_and_nonobject_drop_no_mutation (scorer : String → ℚ)
    (s : ConsumerState) (j : Json) (hj : j.isObj = false) :
    process_message scorer s Raw.malformed = (s, Outcome.decodeError) ∧
    process_message scorer s (Raw.parsed j) = (s, Outcome.shapeError) := by
  refine ⟨rfl, ?_⟩
  cases j with
  | obj fields => simp [Json.isObj] at hj
  | null => rfl
  | bool b => rfl
  | num q => rfl
  | str t => rfl
  | arr l => rfl

/-- Witness for C7 at the non-object payload `null` and the initial
state. -/
theorem malformed_and_nonobject_drop_no_mutation_witness :
    process_message (fun _ => 0) initialState (Raw.parsed Json.null) =
      (initialState, Outcome.shapeError) :=
  (malformed_and_nonobject_drop_no_mutation (fun _ => 0) initialState Json.null rfl).2

/-- C8. The author-weight lookup is total: the weighted score always
equals the raw score times the effective multiplier, which is the
configured value for every key of the weight table and `1` for every
other author — in particular for the default author `"unknown"`, where
the weighted score is the raw score itself. -/
theorem weight_lookup_total :
    (∀ (k : JKey) (score : ℚ),
      weightedScore k score = score * ((weightLookup k).getD 1)) ∧
    weightLookup (JKey.str "unknown") = none ∧
    (∀ (nm : String) (q : ℚ), (nm, q) ∈ author_weights →
      weightLookup (JKey.str nm) = some q) ∧
    (∀ k : JKey, weightLookup k = none →
      ∀ score : ℚ, weightedScore k score = score) := by
  refine ⟨?_, by decide, ?_, ?_⟩
  · intro k score
    cases h : weightLookup k with
    | none => simp [weightedScore, h]
    | some w => simp [weightedScore, h]
  · intro nm q hmem
    simp only [author_weights, List.mem_cons, List.not_mem_nil, or_false,
      Prod.mk.injEq] at hmem
    rcases hmem with ⟨rfl, rfl⟩ | ⟨rfl, rfl⟩ | ⟨rfl, rfl⟩ | ⟨rfl, rfl⟩ | ⟨rfl, rfl⟩ <;>
      simp [weightLookup, author_weights, List.lookup]
  · intro k h score
    simp [weightedScore, h]

/-- Witness for C8: the unknown author gets effective multiplier 1. -/
theorem weight_lookup_total_witness :
    weightedScore (JKey.str "unknown") (3/4) = 3/4 :=
  weight_lookup_total.2.2.2 (JKey.str "unknown") weight_lookup_total.2.1 (3/4)

/-- One `incr` adds exactly one to the total tally. -/
theorem sumCounts_incr (counts : List (JKey × Nat)) (k : JKey) :
    sumCounts (incr counts k) = sumCounts counts + 1 := by
  induction counts with
  | nil => simp [incr, sumCounts]
  | cons p rest ih =>
    obtain ⟨k', n⟩ := p
    by_cases h : k' = k
    · simp [incr, h, sumCounts]
      omega
    · simp [incr, h, sumCounts] at ih ⊢
      omega

/-- One call to `process_message` grows the total tally by one exactly
when the record parses to a JSON object with a hashable author value,
and leaves it unchanged otherwise. -/
theorem process_message_sumCounts (scorer : String → ℚ) (s : ConsumerState)
    (r : Raw) :
    sumCounts (process_message scorer s r).1.author_counts =
      sumCounts s.author_counts + (if tallies r then 1 else 0) := by
  cases r with
  | malformed => simp [process_message, tallies]
  | parsed j =>
    cases j with
    | obj fields =>
      cases ha : ((fields.lookup "author").getD (Json.str "unknown")).hashKey? with
      | none => simp [process_message, tallies, ha]
      | some a =>
        cases hl : fields.lookup "message" with
        | none => simp [process_message, tallies, ha, hl, sumCounts_incr]
        | some j' =>
          cases j' <;> simp [process_message, tallies, ha, hl, sumCounts_incr]
    | null => simp [process_message, tallies]
    | bool b => simp [process_message, tallies]
    | num q => simp [process_message, tallies]
    | str t => simp [process_message, tallies]
    | arr l => simp [process_message, tallies]

/-- C6 counterexample. The record `{"author": "a"}` parses as a JSON
object but lacks the required text field, so by the claim it is not
successfully decoded and should not be counted — yet after processing it
from the initial state the author-count values sum to 1, not 0. -/
theorem counts_sum_counts_undecoded_record :
    sumCounts ((process_message (fun _ => 0) initialState
      (Raw.parsed (Json.obj [("author", Json.str "a")]))).1.author_counts) = 1 ∧
    isTextStr (([(("author" : String), Json.str "a")]).lookup "message") = false ∧
    sumCounts initialState.author_counts = 0 := by
  refine ⟨by decide, by decide, rfl⟩

/-- C6 as amended. After processing any finite sequence of raw records,
the sum of all values in the author-counts table grows by exactly the
number of records that parse as a JSON object whose author value (the
`author` field, or the default `"unknown"`) is usable as a dictionary
key — whether or not the required `message` text field is present — and
each such record increments its author's count exactly once. -/
theorem counts_sum_eq_tallied_records :
    (∀ (scorer : String → ℚ) (s : ConsumerState) (rs : List Raw),
      sumCounts (runConsumer scorer s rs).author_counts =
        sumCounts s.author_counts + (rs.filter tallies).length) ∧
    (∀ (counts : List (JKey × Nat)) (k : JKey),
      sumCounts (incr counts k) = sumCounts counts + 1) := by
  refine ⟨?_, sumCounts_incr⟩
  intro scorer s rs
  induction rs generalizing s with
  | nil => simp [runConsumer]
  | cons r rest ih =>
    have hstep : runConsumer scorer s (r :: rest) =
        runConsumer scorer (process_message scorer s r).1 rest := rfl
    rw [hstep, ih, process_message_sumCounts]
    cases htal : tallies r
    all_goals simp [List.filter_cons, htal]
    all_goals omega

/-- Witness for C6's amended statement: the empty record sequence leaves
the tally total unchanged. -/
theorem counts_sum_eq_tallied_records_witness :
    sumCounts (runConsumer (fun _ => 0) initialState []).author_counts =
      sumCounts initialState.author_counts + (([] : List Raw).filter tallies).length :=
  counts_sum_eq_tallied_records.1 (fun _ => 0) initialState []

end Buzzline
